import Mathlib

/-
Verification development for the xw-cli instance scheduler and its
Anthropic/OpenAI format translator.

Each Go function that a claim depends on is embedded shallowly as an
executable Lean definition; effects (TCP bind probes, Docker calls,
randomness) become explicit oracle parameters or state fields.  Definitions
named after source symbols are translated from the Go source; definitions
whose doc comment starts with "Modelled from the spec:" stand for code of
the repository that is not in the source snapshot (only its callers are)
and follow the specification text instead.
-/

namespace XW

/-- Boolean success test for Except values (binder-free form of "is Ok"). -/
def exceptOk : Except ε α → Bool
  | .ok _ => true
  | .error _ => false

/-! ## Port allocator (src/internal/runtime/port.go, PortAllocator) -/

/-- State of PortAllocator: the set of leased ports and the working range.
`allocated` models the Go map `allocated map[int]bool` (membership = leased). -/
structure PortAllocator where
  allocated : List Nat
  minPort : Nat
  maxPort : Nat
deriving Repr, DecidableEq

/-- NewPortAllocator from port.go lines 28-41: a non-positive minPort defaults
to 10881, and a maxPort not above minPort defaults to minPort + 1000.
Arguments are Int to mirror the Go int parameters and their sign checks. -/
def newPortAllocator (minPort maxPort : Int) : PortAllocator :=
  let mn : Int := if minPort ≤ 0 then 10881 else minPort
  let mx : Int := if maxPort ≤ mn then mn + 1000 else maxPort
  { allocated := [], minPort := mn.toNat, maxPort := mx.toNat }

/-- The sequential scan of GetFreePort (port.go lines 56-68): starting at
port `p`, for `fuel` consecutive ports, skip ports already allocated, and
return the first remaining port for which the bind probe `avail` succeeds.
`avail` is the oracle for `isPortAvailable` (a real TCP listen on
127.0.0.1). -/
def findFreePort (avail : Nat → Bool) (allocated : List Nat) : Nat → Nat → Option Nat
  | _, 0 => none
  | p, fuel + 1 =>
    if allocated.contains p then findFreePort avail allocated (p + 1) fuel
    else if avail p then some p
    else findFreePort avail allocated (p + 1) fuel

/-- GetFreePort (port.go lines 51-71): scan ports minPort..maxPort; on a hit
mark the port leased and return it, otherwise fail and change nothing. -/
def getFreePort (avail : Nat → Bool) (pa : PortAllocator) :
    Except String Nat × PortAllocator :=
  match findFreePort avail pa.allocated pa.minPort (pa.maxPort + 1 - pa.minPort) with
  | some p => (.ok p, { pa with allocated := p :: pa.allocated })
  | none => (.error "no available ports in range", pa)

/-- Specification-side description of the lease (spec sections 4.4 and the
claim): the lowest port of the inclusive range that is not marked leased and
whose bind probe succeeds. `List.range'` enumerates the range in increasing
order, so `find?` returns the lowest qualifying port. -/
def lowestLeasablePort (avail : Nat → Bool) (pa : PortAllocator) : Option Nat :=
  (List.range' pa.minPort (pa.maxPort + 1 - pa.minPort)).find?
    (fun p => !pa.allocated.contains p && avail p)

/-- Specification-side lease: return the lowest leasable port and mark it,
or fail with a resource-exhausted error and allocate nothing. -/
def portLeaseSpec (avail : Nat → Bool) (pa : PortAllocator) :
    Except String Nat × PortAllocator :=
  match lowestLeasablePort avail pa with
  | some p => (.ok p, { pa with allocated := p :: pa.allocated })
  | none => (.error "no available ports in range", pa)

/-! ## Request router model resolution (src/unnamed/part_010, ProxyCore.FindInstanceByModel) -/

/-- The slice of runtime.Instance that FindInstanceByModel reads. -/
structure Inst where
  id : String
  aliasName : String
  modelID : String
  state : String
  port : Nat
deriving Repr, DecidableEq

/-- The alias fallback of FindInstanceByModel: the instance alias, or its
model id when the alias is empty. -/
def effectiveAlias (i : Inst) : String :=
  if i.aliasName = "" then i.modelID else i.aliasName

/-- Pass 1 of FindInstanceByModel (part_010 lines 118-131): skip instances
that are not running, return the first whose lowercased effective alias
equals the lowercased model name. -/
def findExactPass (ml : String) : List Inst → Option Inst
  | [] => none
  | i :: rest =>
    if i.state ≠ "running" then findExactPass ml rest
    else if (effectiveAlias i).toLower = ml then some i
    else findExactPass ml rest

/-- Pass 2 of FindInstanceByModel (part_010 lines 133-147): skip instances
that are not running, return the first whose lowercased effective alias is
related to the lowercased model name by a prefix in either direction. -/
def findPrefixPass (ml : String) : List Inst → Option Inst
  | [] => none
  | i :: rest =>
    if i.state ≠ "running" then findPrefixPass ml rest
    else if ml.isPrefixOf (effectiveAlias i).toLower
         || (effectiveAlias i).toLower.isPrefixOf ml then some i
    else findPrefixPass ml rest

/-- FindInstanceByModel (part_010 lines 110-150): lowercase the request
model, run the exact pass, then the either-direction prefix pass, and fail
when both find nothing. -/
def findInstanceByModel (insts : List Inst) (modelName : String) : Except String Inst :=
  let ml := modelName.toLower
  match findExactPass ml insts with
  | some i => .ok i
  | none =>
    match findPrefixPass ml insts with
    | some i => .ok i
    | none => .error "no running instance found for model"

/-- Specification-side resolution (spec section 4.9, model resolution):
case-insensitive, two passes over the running instances, exact match on the
effective alias first, then prefix match either way, first hit wins. -/
def resolveModelSpec (insts : List Inst) (modelName : String) : Option Inst :=
  let ml := modelName.toLower
  let running := insts.filter (fun i => i.state = "running")
  match running.find? (fun i => (effectiveAlias i).toLower = ml) with
  | some i => some i
  | none =>
    running.find? (fun i =>
      ml.isPrefixOf (effectiveAlias i).toLower || (effectiveAlias i).toLower.isPrefixOf ml)

/-! ## Token-count handler (src/internal/server/handlers/proxy_anthropic.go, HandleCountTokens) -/

/-- Outcome of HandleCountTokens: HTTP status plus either the estimated
input_tokens payload or an Anthropic error type. -/
inductive CountTokensResult where
  | ok (status : Nat) (inputTokens : Nat)
  | err (status : Nat) (errType : String)
deriving Repr, DecidableEq

/-- HandleCountTokens (proxy_anthropic.go lines 166-200) for a POST request
whose body has `bodyLen` bytes; `parseOk` is the outcome of unmarshalling
the body into TokenCountRequest (true exactly for bodies that are valid
JSON for that shape).  The estimate is integer division by 4, clamped below
at 1. -/
def handleCountTokens (parseOk : Bool) (bodyLen : Nat) : CountTokensResult :=
  if !parseOk then .err 400 "invalid_request_error"
  else
    let estimated := bodyLen / 4
    let estimated := if estimated < 1 then 1 else estimated
    .ok 200 estimated

/-! ## Buffered response conversion (src/unnamed/part_005, ConvertResponse) -/

/-- The content field of an OpenAI message: JSON null, a JSON string, or any
other JSON value.  For the last case, messageText re-serialises and tries to
read a string back; `asString` is the result of that round trip. -/
inductive OAIContent where
  | null
  | str (s : String)
  | other (asString : Option String)
deriving Repr, DecidableEq

/-- OpenAI function call payload of a tool call. -/
structure OAIFunctionCall where
  name : String
  arguments : String
deriving Repr, DecidableEq

/-- OpenAI tool call entry on an assistant message. -/
structure OAIToolCall where
  id : String
  callFunction : OAIFunctionCall
deriving Repr, DecidableEq

/-- OpenAI chat message (the subset ConvertResponse reads). -/
structure OAIMessage where
  content : OAIContent
  toolCalls : List OAIToolCall
deriving Repr, DecidableEq

/-- OpenAI chat completion choice. -/
structure OAIChoice where
  message : OAIMessage
  finishReason : String
deriving Repr, DecidableEq

/-- OpenAI usage block. -/
structure OAIUsage where
  promptTokens : Nat
  completionTokens : Nat
deriving Repr, DecidableEq

/-- OpenAI non-streaming chat response (the subset ConvertResponse reads). -/
structure OAIChatResponse where
  id : String
  choices : List OAIChoice
  usage : OAIUsage
deriving Repr, DecidableEq

/-- Anthropic content block of a MessagesResponse. -/
inductive AContentBlock where
  | text (s : String)
  | toolUse (id name arguments : String)
deriving Repr, DecidableEq

/-- Anthropic MessagesResponse (the fields ConvertResponse fills). -/
structure MessagesResponse where
  id : String
  model : String
  content : List AContentBlock
  stopReason : String
  inputTokens : Nat
  outputTokens : Nat
deriving Repr, DecidableEq

/-- mapFinishReason (part_005 lines 117-128). -/
def mapFinishReason (reason : String) : String :=
  if reason = "stop" then "end_turn"
  else if reason = "length" then "max_tokens"
  else if reason = "tool_calls" then "tool_use"
  else "end_turn"

/-- messageText (part_005 lines 75-94): null content is empty, string
content is itself, any other value is the result of the JSON round trip. -/
def messageText (msg : OAIMessage) : String :=
  match msg.content with
  | .null => ""
  | .str s => s
  | .other (some s) => s
  | .other none => ""

/-- coalesce (part_005 lines 148-155) on two strings. -/
def coalesce2 (a b : String) : String :=
  if a ≠ "" then a else b

/-- buildContentBlocks (part_005 lines 46-71): a text block when the message
text is non-empty, one tool_use block per tool call, and an empty text block
when nothing else was produced.  `genToolId` supplies the random toolu_ id
used when a tool call carries no id (generateToolID), indexed by position. -/
def buildContentBlocks (genToolId : Nat → String) (msg : OAIMessage) : List AContentBlock :=
  let textBlocks := if messageText msg ≠ "" then [AContentBlock.text (messageText msg)] else []
  let toolBlocks :=
    (msg.toolCalls.enum.map fun tc =>
      AContentBlock.toolUse (coalesce2 tc.2.id (genToolId tc.1)) tc.2.callFunction.name
        tc.2.callFunction.arguments)
  let blocks := textBlocks ++ toolBlocks
  if blocks = [] then [AContentBlock.text ""] else blocks

/-- ConvertResponse (part_005 lines 16-43).  `parsed` is the result of
unmarshalling the backend body (`none` for bodies that are not valid JSON
for OpenAIChatResponse); `genMsgId` supplies the random msg_ id
(generateMessageID). -/
def convertResponse (parsed : Option OAIChatResponse) (requestModel : String)
    (genMsgId : String) (genToolId : Nat → String) : Except String MessagesResponse :=
  match parsed with
  | none => .error "parsing OpenAI response"
  | some resp =>
    match resp.choices with
    | [] => .error "OpenAI response contains no choices"
    | choice :: _ =>
      .ok { id := coalesce2 resp.id genMsgId
            model := requestModel
            content := buildContentBlocks genToolId choice.message
            stopReason := mapFinishReason choice.finishReason
            inputTokens := resp.usage.promptTokens
            outputTokens := resp.usage.completionTokens }

/-! ## User tool-result flattening (src/internal/models/spec.go part, convertUserToolResults) -/

/-- The polymorphic content of a tool_result block, mirroring the three
unmarshal attempts of extractToolResultContent plus the raw fallback. -/
inductive ToolResultContent where
  | empty
  | str (s : String)
  | blocks (bs : List (String × String))
  | obj (serialised : String)
  | raw (bytes : String)
deriving Repr, DecidableEq

/-- extractToolResultContent (spec.go part lines 404-435): a string stays, a
block array keeps the text of text blocks joined by newlines, an object is
its serialisation, anything else is the raw bytes. -/
def extractToolResultContent : ToolResultContent → String
  | .empty => ""
  | .str s => s
  | .blocks bs =>
    String.intercalate "\n" ((bs.filter (fun b => b.1 = "text")).map (·.2))
  | .obj s => s
  | .raw s => s

/-- A content block of an Anthropic request message (the fields
convertUserToolResults reads). -/
structure ReqBlock where
  type : String
  text : String
  toolUseID : String
  content : ToolResultContent
deriving Repr, DecidableEq

/-- An OpenAI message with plain string content, as produced by
convertUserToolResults. -/
structure FlatMessage where
  role : String
  content : String
deriving Repr, DecidableEq

/-- The string builder loop of convertUserToolResults (spec.go part lines
341-353): text blocks contribute their text plus a newline, tool_result
blocks contribute a labelled section, other block types contribute
nothing. -/
def flattenUserToolResults (blocks : List ReqBlock) : String :=
  blocks.foldl
    (fun acc b =>
      if b.type = "text" then acc ++ b.text ++ "\n"
      else if b.type = "tool_result" then
        acc ++ "Tool result for " ++ b.toolUseID ++ ":\n"
          ++ extractToolResultContent b.content ++ "\n"
      else acc)
    ""

/-- convertUserToolResults (spec.go part lines 338-360): flatten, trim, and
substitute the placeholder when the trimmed text is empty; always a single
user message. -/
def convertUserToolResults (blocks : List ReqBlock) : List FlatMessage :=
  let text := (flattenUserToolResults blocks).trim
  let text := if text = "" then "..." else text
  [{ role := "user", content := text }]

/-! ## Container create-spec environment merge (src/internal/runtime/omni-infer-docker/runtime.go, Runtime.Create) -/

/-- A string-keyed environment as a partial map; Go map writes become
function updates. -/
def EnvMap := String → Option String

/-- Map update, modelling `env[k] = v`. -/
def envInsert (m : EnvMap) (k v : String) : EnvMap :=
  fun q => if q = k then some v else m q

/-- The empty environment. -/
def envEmpty : EnvMap := fun _ => none

/-- Insert every pair of a list in order (later pairs win). -/
def envOfList (l : List (String × String)) : EnvMap :=
  l.foldl (fun m kv => envInsert m kv.1 kv.2) envEmpty

/-- The merge loop of Runtime.Create (runtime.go lines 154-161): copy the
user environment first, then copy the sandbox environment over it, so the
sandbox value overwrites the user value on every colliding key. -/
def mergeEnv (user sandbox : List (String × String)) : EnvMap :=
  sandbox.foldl (fun m kv => envInsert m kv.1 kv.2) (envOfList user)

/-- The create parameters Runtime.Create reads when building the container
environment (runtime.go lines 163-195). -/
structure CreateEnvParams where
  aliasName : String
  modelID : String
  tensorParallel : Nat
  deviceCount : Nat
  maxModelLen : Option Int
  port : Nat
  environment : List (String × String)

/-- The canonical environment construction of Runtime.Create (runtime.go
lines 154-195): user env merged under sandbox env, then the canonical keys
MODEL_PATH, MODEL_NAME, TENSOR_PARALLEL_SIZE, MAX_MODEL_LEN (when
configured positive) and SERVER_PORT written on top.  ApplyTemplateParams
(runtime_params.yaml templates, not in the source snapshot) sits between
the merge and the canonical writes and is not modelled; it reads neither
the user nor the sandbox environment. -/
def buildCreateEnv (p : CreateEnvParams) (sandboxEnv : List (String × String)) : EnvMap :=
  let env := mergeEnv p.environment sandboxEnv
  let env := envInsert env "MODEL_PATH" "/mnt/model"
  let modelName := if p.aliasName = "" then p.modelID else p.aliasName
  let env := envInsert env "MODEL_NAME" modelName
  let env := envInsert env "TENSOR_PARALLEL_SIZE"
    (toString (if 0 < p.tensorParallel then p.tensorParallel else p.deviceCount))
  let env :=
    match p.maxModelLen with
    | some n => if 0 < n then envInsert env "MAX_MODEL_LEN" (toString n) else env
    | none => env
  envInsert env "SERVER_PORT" (if 0 < p.port then toString p.port else "8000")

/-- Modelled from the spec: which environment keys are device keys.  The
spec (section 4.5) names the sandbox device-visibility variables, e.g.
ASCEND_VISIBLE_DEVICES on Ascend; no specialised sandbox implementation is
in the source snapshot. -/
def isDeviceKey (k : String) : Bool :=
  k = "ASCEND_VISIBLE_DEVICES"

/-- The five canonical keys written by Runtime.Create after the merge. -/
def isCanonicalEnvKey (k : String) : Bool :=
  k = "MODEL_PATH" || k = "MODEL_NAME" || k = "TENSOR_PARALLEL_SIZE"
    || k = "MAX_MODEL_LEN" || k = "SERVER_PORT"

/-! ## Scheduler (src/internal/runtime/port.go, Manager.Run)

The scheduler is modelled as a state-transition function.  The state holds
what the Go process observes through its collaborators: the registered
instances (what Manager.List returns), the live containers with their xw
labels (the device allocator's source of truth per the comment at port.go
line 181), the leased ports, the immutable device inventory, and the set of
registered runtime names.  Container start success is an explicit oracle
argument, and the Unix timestamp used in the instance id is a parameter. -/

/-- A logical device of the inventory (the fields Manager.Run reads from
device.DeviceInfo). -/
structure SchedDevice where
  index : Nat
  busAddress : String
deriving Repr, DecidableEq

/-- A runtime.Instance as tracked by a runtime's instance map (the fields
Manager.Run reads). -/
structure RTInstance where
  id : String
  modelID : String
  state : String
  port : Nat
deriving Repr, DecidableEq

/-- A live container with its xw labels (instance id, device indices,
port). -/
structure RTContainer where
  instanceID : String
  deviceIndices : List Nat
  port : Nat
deriving Repr, DecidableEq

/-- The observable state the scheduler transitions on. -/
structure SchedState where
  instances : List RTInstance
  containers : List RTContainer
  leasedPorts : List Nat
  inventory : List SchedDevice
  runtimes : List String
  minPort : Nat
  maxPort : Nat
deriving Repr, DecidableEq

/-- The run options Manager.Run reads (RunOptions): `device` is the
caller-supplied string under AdditionalConfig "device" (`none` when the
entry is absent or not a string). -/
structure SchedRunOptions where
  modelID : String
  backendType : String
  deploymentMode : String
  modelPath : String
  port : Nat
  device : Option String
deriving Repr, DecidableEq

/-- The RunInstance view returned by Manager.Run (the fields the claims
read). -/
structure SchedRunInstance where
  id : String
  modelID : String
  state : String
  port : Nat
deriving Repr, DecidableEq

/-- Whitespace test for the trim of parseDeviceList (the ASCII fragment of
Go strings.TrimSpace). -/
def isSpaceChar (c : Char) : Bool :=
  c = ' ' || c = '\t' || c = '\n' || c = '\r'

/-- strings.TrimSpace on a character list. -/
def goTrim (l : List Char) : List Char :=
  ((l.dropWhile isSpaceChar).reverse.dropWhile isSpaceChar).reverse

/-- strings.Split on the comma separator, over a character list. -/
def splitOnComma : List Char → List (List Char)
  | [] => [[]]
  | c :: rest =>
    match splitOnComma rest with
    | [] => [[]]
    | cur :: acc => if c = ',' then [] :: cur :: acc else (c :: cur) :: acc

/-- The digit accumulator of strconv.Atoi: every character must be a
decimal digit; the empty list is rejected. -/
def digitsVal (l : List Char) : Option Nat :=
  match l with
  | [] => none
  | _ =>
    l.foldl
      (fun acc c =>
        acc.bind fun n => if c.isDigit then some (n * 10 + (c.toNat - 48)) else none)
      (some 0)

/-- strconv.Atoi on a character list: an optional sign followed by decimal
digits. -/
def goAtoi (l : List Char) : Option Int :=
  match l with
  | '+' :: rest => (digitsVal rest).map (fun n => (n : Int))
  | '-' :: rest => (digitsVal rest).map (fun n => -(n : Int))
  | _ => (digitsVal l).map (fun n => (n : Int))

/-- parseDeviceList (port.go lines 593-625): trim, split on commas, trim
each part skipping empty ones, parse each as an integer, reject negatives,
and reject an empty result. -/
def parseDeviceList (deviceList : String) : Except String (List Nat) :=
  let dl := goTrim deviceList.toList
  if dl = [] then .error "empty device list"
  else
    let parsed :=
      (splitOnComma dl).foldl
        (fun (acc : Except String (List Nat)) part =>
          acc.bind fun idxs =>
            let p := goTrim part
            if p = [] then .ok idxs
            else
              match goAtoi p with
              | none => .error "invalid device index"
              | some i =>
                if i < 0 then .error "device index cannot be negative"
                else .ok (idxs ++ [i.toNat]))
        (.ok [])
    match parsed with
    | .error e => .error e
    | .ok idxs => if idxs = [] then .error "no valid device indices found" else .ok idxs

/-- The device-index union over live containers: the allocated set is the
union of the xw.device_indices labels (port.go line 181 comment, spec
section 4.3). -/
def allocatedIndices (s : SchedState) : List Nat :=
  s.containers.foldr (fun c acc => c.deviceIndices ++ acc) []

/-- The free devices: inventory entries whose index is on no live
container. -/
def freeDevices (s : SchedState) : List SchedDevice :=
  s.inventory.filter (fun d => !(allocatedIndices s).contains d.index)

/-- Modelled from the spec: device.Allocator.Allocate (not in the source
snapshot; spec section 4.3) fails with ResourceExhausted when fewer than
`n` devices are free, otherwise returns `n` free devices.  The spec's
topology-distance choice is abstracted to the lowest-indexed free devices;
no verified claim depends on which free devices are picked. -/
def allocatorAllocate (s : SchedState) (n : Nat) : Except String (List SchedDevice) :=
  let free := freeDevices s
  if free.length < n then .error "insufficient free devices"
  else .ok (free.take n)

/-- Modelled from the spec: device.Allocator.Release (not in the source
snapshot; spec section 4.3) is idempotent and is realised by stopping the
owning container so its labels vanish. -/
def allocatorRelease (s : SchedState) (instanceID : String) : SchedState :=
  { s with containers := s.containers.filter (fun c => c.instanceID ≠ instanceID) }

/-- The device step of Manager.Run (port.go lines 443-497): an explicit
non-empty device string is parsed and validated only against the inventory
size (each index must satisfy `idx < len(allDevices)`); otherwise one
device is auto-allocated. -/
def deviceStep (s : SchedState) (opts : SchedRunOptions) : Except String (List SchedDevice) :=
  match opts.device with
  | some dl =>
    if dl ≠ "" then
      match parseDeviceList dl with
      | .error e => .error e
      | .ok idxs =>
        if idxs.any (fun i => s.inventory.length ≤ i) then
          .error "device index out of range"
        else .ok (idxs.map (fun i => s.inventory.getD i { index := 0, busAddress := "" }))
    else allocatorAllocate s 1
  | none => allocatorAllocate s 1

/-- Modelled from the spec: the port step (spec section 4.8 step 5; the
leasing caller is not in the source snapshot): an explicit positive port is
used and marked leased, otherwise the lowest unleased port of the range is
leased; the bind probe is assumed to succeed on unleased ports. -/
def leasePortStep (s : SchedState) (requested : Nat) : Except String (Nat × SchedState) :=
  if 0 < requested then .ok (requested, { s with leasedPorts := requested :: s.leasedPorts })
  else
    match (List.range' s.minPort (s.maxPort + 1 - s.minPort)).find?
        (fun p => !s.leasedPorts.contains p) with
    | some p => .ok (p, { s with leasedPorts := p :: s.leasedPorts })
    | none => .error "no available ports"

/-- Runtime.Create as the scheduler observes it (duplicate-id and empty
device checks from omni-infer-docker/runtime.go lines 124-137, container
creation with xw labels and registration as `created` from lines 259-340;
the port lease of the missing base runtime sits inside, see
`leasePortStep`). -/
def rtCreate (s : SchedState) (instanceID modelID : String) (devs : List SchedDevice)
    (requestedPort : Nat) : Except String (Nat × SchedState) :=
  if s.instances.any (fun i => i.id = instanceID) then .error "instance already exists"
  else if devs.isEmpty then .error "at least one device is required"
  else
    match leasePortStep s requestedPort with
    | .error e => .error e
    | .ok (port, s1) =>
      .ok (port,
        { s1 with
          containers :=
            { instanceID := instanceID, deviceIndices := devs.map (·.index),
              port := port } :: s1.containers
          instances :=
            { id := instanceID, modelID := modelID, state := "created",
              port := port } :: s1.instances })

/-- Modelled from the spec: Runtime.Start (not in the source snapshot;
spec section 4.8 step 8) transitions the created instance to `starting`;
`startOK` is the success oracle for the container start. -/
def rtStart (s : SchedState) (instanceID : String) (startOK : Bool) :
    Except String SchedState :=
  if startOK then
    .ok { s with
          instances := s.instances.map
            (fun i => if i.id = instanceID then { i with state := "starting" } else i) }
  else .error "start failed"

/-- Modelled from the spec: Runtime.Remove (not in the source snapshot;
spec section 4.8: stop if running, remove the container, release the port,
delete the registry entry). -/
def rtRemove (s : SchedState) (instanceID : String) : SchedState :=
  let portOfContainer :=
    (s.containers.find? (fun c => c.instanceID = instanceID)).map (·.port)
  { s with
    containers := s.containers.filter (fun c => c.instanceID ≠ instanceID)
    instances := s.instances.filter (fun i => i.id ≠ instanceID)
    leasedPorts :=
      match portOfContainer with
      | some p => s.leasedPorts.erase p
      | none => s.leasedPorts }

/-- The dedup scan of Manager.Run (port.go lines 388-414): the first listed
instance with the requested model id in the running state. -/
def dedupFind (s : SchedState) (opts : SchedRunOptions) : Option RTInstance :=
  s.instances.find? (fun i => i.modelID = opts.modelID && i.state = "running")

/-- The instance id generated by Manager.Run (port.go line 430): model id
suffixed with the Unix timestamp. -/
def runInstanceID (now : Nat) (opts : SchedRunOptions) : String :=
  opts.modelID ++ "-" ++ toString now

/-- Manager.Run (port.go lines 383-551): dedup against a running instance
of the same model, resolve the runtime name, validate the model path,
resolve devices (explicit list or auto-allocation), create the container,
start it, and on start failure roll back by removing the instance and
releasing its devices before surfacing the error. -/
def schedRun (now : Nat) (startOK : Bool) (s : SchedState) (opts : SchedRunOptions) :
    Except String SchedRunInstance × SchedState :=
  match dedupFind s opts with
  | some inst => (.ok { id := inst.id, modelID := inst.modelID, state := inst.state,
                        port := inst.port }, s)
  | none =>
    let runtimeName := opts.backendType ++ "-" ++ opts.deploymentMode
    if !s.runtimes.contains runtimeName then (.error "runtime not available", s)
    else
      let instanceID := runInstanceID now opts
      if opts.modelPath = "" then (.error "model path is required", s)
      else
        match deviceStep s opts with
        | .error e => (.error e, s)
        | .ok devs =>
          match rtCreate s instanceID opts.modelID devs opts.port with
          | .error e => (.error ("failed to create instance: " ++ e), s)
          | .ok (port, s1) =>
            match rtStart s1 instanceID startOK with
            | .error e =>
              let s2 := rtRemove s1 instanceID
              let s3 := allocatorRelease s2 instanceID
              (.error ("failed to start instance: " ++ e), s3)
            | .ok s2 =>
              (.ok { id := instanceID, modelID := opts.modelID, state := "starting",
                     port := port }, s2)

/-! ## Stream adapter (src/internal/apiformat/stream.go, StreamAdapter)

The adapter is modelled over the sequence of decoded OpenAI chunks (the
`data:` payloads up to but excluding the terminal `[DONE]` marker;
non-`data:` lines and malformed JSON chunks are skipped by Transform and
therefore not represented).  The random tool-use id of generateToolID is
abstracted to a constant; ids never influence event ordering. -/

/-- The payload of an Anthropic content_block_delta. -/
inductive ADelta where
  | textDelta (text : String)
  | inputJsonDelta (fragment : String)
deriving Repr, DecidableEq

/-- The content_block payload of a content_block_start. -/
inductive ABlock where
  | text
  | toolUse (id name : String)
deriving Repr, DecidableEq

/-- One emitted Anthropic SSE event; `done` stands for the terminal
`data: [DONE]` line written by emitMessageStop. -/
inductive AEvent where
  | messageStart
  | ping
  | contentBlockStart (index : Nat) (block : ABlock)
  | contentBlockDelta (index : Nat) (delta : ADelta)
  | contentBlockStop (index : Nat)
  | messageDelta (stopReason : String) (outputTokens : Nat)
  | messageStop
  | done
deriving Repr, DecidableEq

/-- One OpenAI streaming tool-call fragment (the fields processToolCalls
reads): the OpenAI-side index (nil defaults to 0), the id, the function
name, and the arguments fragment. -/
structure ToolCallFragment where
  index : Option Nat
  id : String
  name : String
  arguments : String
deriving Repr, DecidableEq

/-- The delta of a streaming choice. -/
structure ChunkDelta where
  content : Option String
  toolCalls : List ToolCallFragment
deriving Repr, DecidableEq

/-- A streaming choice. -/
structure ChunkChoice where
  delta : ChunkDelta
  finishReason : Option String
deriving Repr, DecidableEq

/-- A decoded OpenAI streaming chunk. -/
structure Chunk where
  usage : Option OAIUsage
  choices : List ChunkChoice
deriving Repr, DecidableEq

/-- The mutable state of StreamAdapter (stream.go lines 39-52). -/
structure SAState where
  textBlockOpen : Bool
  textBlockDone : Bool
  toolIndex : Option Nat
  lastBlockIndex : Nat
  inputTokens : Nat
  outputTokens : Nat
  finished : Bool
deriving Repr, DecidableEq

/-- Abstraction of generateToolID for tool calls arriving without an id. -/
def freshToolId : String := "toolu_fresh"

/-- One fragment of processToolCalls (stream.go lines 148-177): a fragment
whose OpenAI index differs from the current tool opens a new Anthropic
block, then a non-empty arguments fragment emits an input_json_delta at the
current Anthropic block index. -/
def processToolCallFragment (st : SAState) (tc : ToolCallFragment) :
    SAState × List AEvent :=
  let idx := tc.index.getD 0
  let (st1, evs1) :=
    if st.toolIndex = some idx then (st, [])
    else
      let blockIdx := st.lastBlockIndex + 1
      let toolID := if tc.id = "" then freshToolId else tc.id
      ({ st with toolIndex := some idx, lastBlockIndex := blockIdx },
        [AEvent.contentBlockStart blockIdx (ABlock.toolUse toolID tc.name)])
  if tc.arguments ≠ "" then
    (st1, evs1 ++ [AEvent.contentBlockDelta st1.lastBlockIndex (ADelta.inputJsonDelta tc.arguments)])
  else (st1, evs1)

/-- The fragment loop of processToolCalls (stream.go lines 148-177),
emitting the events of each fragment in order. -/
def processFragments (st : SAState) : List ToolCallFragment → SAState × List AEvent
  | [] => (st, [])
  | tc :: rest =>
    let r := processToolCallFragment st tc
    let r2 := processFragments r.1 rest
    (r2.1, r.2 ++ r2.2)

/-- processToolCalls (stream.go lines 141-178): the first ever tool call
closes the text block, then every fragment is handled in order. -/
def processToolCalls (st : SAState) (tcs : List ToolCallFragment) :
    SAState × List AEvent :=
  let r0 :=
    if st.toolIndex = none && !st.textBlockDone then
      ({ st with textBlockDone := true }, [AEvent.contentBlockStop 0])
    else (st, [])
  let r := processFragments r0.1 tcs
  (r.1, r0.2 ++ r.2)

/-- handleFinish (stream.go lines 182-202): once per stream, close the tool
blocks 1..lastBlockIndex, close the text block if still open, then emit
message_delta, message_stop and the terminal marker. -/
def handleFinish (st : SAState) (reason : String) : SAState × List AEvent :=
  if st.finished then (st, [])
  else
    let toolStops := (List.range' 1 st.lastBlockIndex).map AEvent.contentBlockStop
    let (st1, textStop) :=
      if !st.textBlockDone then
        ({ st with textBlockDone := true }, [AEvent.contentBlockStop 0])
      else (st, [])
    ({ st1 with finished := true },
      toolStops ++ textStop
        ++ [AEvent.messageDelta (mapFinishReason reason) st.outputTokens,
            AEvent.messageStop, AEvent.done])

/-- The usage bookkeeping of processChunk (stream.go lines 110-113). -/
def usageStep (st : SAState) (c : Chunk) : SAState :=
  match c.usage with
  | some u => { st with inputTokens := u.promptTokens, outputTokens := u.completionTokens }
  | none => st

/-- The text handling of processChunk (stream.go lines 121-126): a
non-empty content delta is forwarded as a text_delta at index 0 while the
text block is open and not yet closed. -/
def textStep (st : SAState) (con : Option String) : List AEvent :=
  match con with
  | some s =>
    if s ≠ "" && st.textBlockOpen && !st.textBlockDone then
      [AEvent.contentBlockDelta 0 (ADelta.textDelta s)]
    else []
  | none => []

/-- The tool-call handling of processChunk (stream.go lines 128-131). -/
def toolStep (st : SAState) (tcs : List ToolCallFragment) : SAState × List AEvent :=
  if tcs.isEmpty then (st, []) else processToolCalls st tcs

/-- The finish handling of processChunk (stream.go lines 133-136). -/
def finishStep (st : SAState) (fr : Option String) : SAState × List AEvent :=
  match fr with
  | some r => handleFinish st r
  | none => (st, [])

/-- processChunk (stream.go lines 108-137): record usage, then for the
first choice handle the text delta, the tool-call fragments, and the finish
reason in that order. -/
def processChunk (st : SAState) (c : Chunk) : SAState × List AEvent :=
  let st := usageStep st c
  match c.choices with
  | [] => (st, [])
  | choice :: _ =>
    let evs1 := textStep st choice.delta.content
    let r2 := toolStep st choice.delta.toolCalls
    let r3 := finishStep r2.1 choice.finishReason
    (r3.1, evs1 ++ r2.2 ++ r3.2)

/-- The chunk loop of Transform. -/
def processChunks (st : SAState) : List Chunk → SAState × List AEvent
  | [] => (st, [])
  | c :: cs =>
    let (st1, evs1) := processChunk st c
    let (st2, evs2) := processChunks st1 cs
    (st2, evs1 ++ evs2)

/-- The adapter state after the opening envelope: the text block is open. -/
def saInit : SAState :=
  { textBlockOpen := true, textBlockDone := false, toolIndex := none,
    lastBlockIndex := 0, inputTokens := 0, outputTokens := 0, finished := false }

/-- Transform (stream.go lines 68-105): emit the opening envelope
(message_start, content_block_start at 0, ping), process every decoded
chunk, and finalize with a synthetic "stop" finish when none arrived. -/
def transform (chunks : List Chunk) : List AEvent :=
  let opening := [AEvent.messageStart, AEvent.contentBlockStart 0 ABlock.text, AEvent.ping]
  let (st, evs) := processChunks saInit chunks
  let closing := if !st.finished then (handleFinish st "stop").2 else []
  opening ++ evs ++ closing

/-- The ordering property of the claim: every content_block_delta at index
i has a content_block_start for i before it and a content_block_stop for i
after it, and the sequence ends with message_stop immediately followed by
the terminal marker. -/
def SSEOrdered (es : List AEvent) : Prop :=
  (∀ u i d v, es = u ++ AEvent.contentBlockDelta i d :: v →
      (∃ b, AEvent.contentBlockStart i b ∈ u) ∧ AEvent.contentBlockStop i ∈ v)
  ∧ ∃ u, es = u ++ [AEvent.messageStop, AEvent.done]

/-- Whether a chunk carries a finish_reason in its first choice (the only
choice processChunk reads). -/
def finishBearing (c : Chunk) : Bool :=
  match c.choices with
  | [] => false
  | choice :: _ => choice.finishReason.isSome

/-- Whether a chunk carries tool-call fragments in its first choice. -/
def hasToolCalls (c : Chunk) : Bool :=
  match c.choices with
  | [] => false
  | choice :: _ => !choice.delta.toolCalls.isEmpty

/-- The restriction the counterexample forces: once a chunk carries a
finish_reason, no later chunk may carry tool-call fragments. -/
def cleanAfterFinish : List Chunk → Bool
  | [] => true
  | c :: rest =>
    if finishBearing c then rest.all (fun cc => !hasToolCalls cc)
    else cleanAfterFinish rest

/-- A content block index whose content_block_stop is still owed by the
closing sequence of handleFinish: the text block 0 while it is not closed,
and every tool block up to lastBlockIndex. -/
def Pending (st : SAState) (i : Nat) : Prop :=
  (i = 0 ∧ st.textBlockDone = false) ∨ (1 ≤ i ∧ i ≤ st.lastBlockIndex)

/-- Every content_block_delta already emitted has a matching
content_block_start before it, and its content_block_stop either already
follows it or is still owed by the closing sequence. -/
def DeltasOk (st : SAState) (es : List AEvent) : Prop :=
  ∀ u i d v, es = u ++ AEvent.contentBlockDelta i d :: v →
    (∃ b, AEvent.contentBlockStart i b ∈ u) ∧
    (AEvent.contentBlockStop i ∈ v ∨ Pending st i)

/-- Every block index up to lastBlockIndex has been started. -/
def StartsOk (st : SAState) (es : List AEvent) : Prop :=
  ∀ k, k ≤ st.lastBlockIndex → ∃ b, AEvent.contentBlockStart k b ∈ es

/-- The adapter invariant while no finish_reason has been processed. -/
def SAInv (st : SAState) (es : List AEvent) : Prop :=
  st.finished = false ∧ st.textBlockOpen = true ∧
  (st.toolIndex ≠ none → 1 ≤ st.lastBlockIndex) ∧
  StartsOk st es ∧ DeltasOk st es

/-! ## Concrete states and inputs used by counterexamples and witnesses -/

/-- A state with one running instance holding device 0 out of a two-device
inventory. -/
def overlapState : SchedState :=
  { instances := [{ id := "other-1", modelID := "m2", state := "running", port := 10881 }]
    containers := [{ instanceID := "other-1", deviceIndices := [0], port := 10881 }]
    leasedPorts := [10881]
    inventory := [{ index := 0, busAddress := "p0" }, { index := 1, busAddress := "p1" }]
    runtimes := ["vllm-docker"]
    minPort := 10881, maxPort := 11881 }

/-- A request that names device 0 explicitly although device 0 is held by a
live container of `overlapState`. -/
def overlapOpts : SchedRunOptions :=
  { modelID := "m1", backendType := "vllm", deploymentMode := "docker",
    modelPath := "/m", port := 10900, device := some "0" }

/-- An empty state with a one-device inventory. -/
def smallState : SchedState :=
  { instances := [], containers := [], leasedPorts := []
    inventory := [{ index := 0, busAddress := "p0" }]
    runtimes := ["vllm-docker"]
    minPort := 10881, maxPort := 11881 }

/-- A request naming device 5, outside the one-device inventory of
`smallState`. -/
def outOfRangeOpts : SchedRunOptions :=
  { modelID := "m1", backendType := "vllm", deploymentMode := "docker",
    modelPath := "/m", port := 10900, device := some "5" }

/-- A request with automatic device allocation and an explicit port. -/
def autoOpts : SchedRunOptions :=
  { modelID := "m", backendType := "vllm", deploymentMode := "docker",
    modelPath := "/m", port := 10900, device := none }

/-- A state with one running instance of model "m". -/
def dedupState : SchedState :=
  { instances := [{ id := "m-1", modelID := "m", state := "running", port := 10881 }]
    containers := [{ instanceID := "m-1", deviceIndices := [0], port := 10881 }]
    leasedPorts := [10881]
    inventory := [{ index := 0, busAddress := "p0" }]
    runtimes := ["vllm-docker"]
    minPort := 10881, maxPort := 11881 }

/-- A chunk carrying only a finish_reason. -/
def finishChunk : Chunk :=
  { usage := none
    choices := [{ delta := { content := none, toolCalls := [] },
                  finishReason := some "stop" }] }

/-- A chunk carrying a tool-call fragment and no finish_reason. -/
def lateToolChunk : Chunk :=
  { usage := none
    choices := [{ delta := { content := none,
                             toolCalls := [{ index := some 0, id := "t1", name := "f",
                                             arguments := "x" }] },
                  finishReason := none }] }

/-- A chunk carrying a text delta and no finish_reason. -/
def textChunk : Chunk :=
  { usage := none
    choices := [{ delta := { content := some "Hello", toolCalls := [] },
                  finishReason := none }] }

/-! ## Theorems -/

theorem findFreePort_eq_find? (avail : Nat → Bool) (allocated : List Nat) :
    ∀ (fuel lo : Nat),
      findFreePort avail allocated lo fuel =
        (List.range' lo fuel).find? (fun p => !allocated.contains p && avail p) := by
  intro fuel
  induction fuel with
  | zero => intro lo; rfl
  | succ n ih =>
    intro lo
    rw [List.range'_succ]
    cases hc : allocated.contains lo with
    | true =>
      rw [List.find?_cons_of_neg _
        (by simp only [hc, Bool.not_true, Bool.false_and]; exact Bool.false_ne_true)]
      unfold findFreePort
      rw [if_pos hc]
      exact ih _
    | false =>
      cases ha : avail lo with
      | true =>
        rw [List.find?_cons_of_pos _ (by simp only [hc, Bool.not_false, Bool.true_and, ha])]
        unfold findFreePort
        rw [if_neg (by simp only [hc]; exact Bool.false_ne_true), if_pos ha]
      | false =>
        rw [List.find?_cons_of_neg _
          (by simp only [hc, Bool.not_false, Bool.true_and, ha]; exact Bool.false_ne_true)]
        unfold findFreePort
        rw [if_neg (by simp only [hc]; exact Bool.false_ne_true),
          if_neg (by simp only [ha]; exact Bool.false_ne_true)]
        exact ih _

/-- C4: GetFreePort returns the lowest port of the range that is neither
marked leased nor rejected by the bind probe, marking it leased; when every
port of the range is leased or unbindable it fails and changes nothing
(`portLeaseSpec` is that specification, with `lowestLeasablePort` the lowest
qualifying port of the range). -/
theorem getFreePort_matches_spec (avail : Nat → Bool) (pa : PortAllocator) :
    getFreePort avail pa = portLeaseSpec avail pa := by
  unfold getFreePort portLeaseSpec lowestLeasablePort
  rw [findFreePort_eq_find?]

theorem findExactPass_eq_filter_find (ml : String) (l : List Inst) :
    findExactPass ml l =
      (l.filter (fun i => i.state = "running")).find?
        (fun i => (effectiveAlias i).toLower = ml) := by
  induction l with
  | nil => rfl
  | cons i rest ih =>
    by_cases hs : i.state = "running"
    · by_cases hm : (effectiveAlias i).toLower = ml <;>
        simp [findExactPass, hs, hm, List.find?_cons, ih]
    · simp [findExactPass, hs, ih]

theorem findPrefixPass_eq_filter_find (ml : String) (l : List Inst) :
    findPrefixPass ml l =
      (l.filter (fun i => i.state = "running")).find?
        (fun i => ml.isPrefixOf (effectiveAlias i).toLower
          || (effectiveAlias i).toLower.isPrefixOf ml) := by
  induction l with
  | nil => rfl
  | cons i rest ih =>
    by_cases hs : i.state = "running"
    · by_cases hm : (ml.isPrefixOf (effectiveAlias i).toLower
          || (effectiveAlias i).toLower.isPrefixOf ml) = true <;>
        simp [findPrefixPass, hs, hm, List.find?_cons, ih]
    · simp [findPrefixPass, hs, ih]

/-- C5: model resolution is case-insensitive and proceeds in exactly two
passes over the running instances — an exact match of the lowercased
request model against each instance's lowercased alias (model id when the
alias is empty), then a prefix match in either direction — the first hit of
a pass winning, and an error is reported when both passes find nothing
(`resolveModelSpec` is that two-pass specification). -/
theorem findInstanceByModel_matches_spec (insts : List Inst) (modelName : String) :
    findInstanceByModel insts modelName =
      match resolveModelSpec insts modelName with
      | some i => .ok i
      | none => .error "no running instance found for model" := by
  simp only [findInstanceByModel, resolveModelSpec]
  rw [findExactPass_eq_filter_find, findPrefixPass_eq_filter_find]
  split
  · rfl
  · rfl

/-- C7 counterexample: the claim says a valid JSON body of byte length L is
answered with input_tokens = ceil(L/4); for the 5-byte valid JSON body
consisting of an empty object and three trailing spaces the handler answers
input_tokens = 1 while ceil(5/4) = 2. -/
theorem handleCountTokens_ceil_counterexample :
    handleCountTokens true 5 = CountTokensResult.ok 200 1 ∧
    (5 + 3) / 4 = 2 ∧
    CountTokensResult.ok 200 1 ≠ CountTokensResult.ok 200 ((5 + 3) / 4) := by
  refine ⟨rfl, rfl, ?_⟩
  decide

/-- C7 amended: for every POST /v1/messages/count_tokens request whose body
is valid JSON of byte length L, the handler responds 200 with input_tokens
equal to max(1, floor(L/4)) (floor division, clamped below at one). -/
theorem handleCountTokens_floor_clamped (bodyLen : Nat) :
    handleCountTokens true bodyLen = CountTokensResult.ok 200 (max 1 (bodyLen / 4)) := by
  unfold handleCountTokens
  by_cases h : bodyLen / 4 < 1
  · simp [h, Nat.le_of_lt_succ h]
    omega
  · simp [h]
    omega

/-- C9: ConvertResponse produces a MessagesResponse exactly when the body
parsed as an OpenAI response and its choices array is non-empty; for an
unparsable body or an absent or empty choices array it returns an error
(an absent choices field unmarshals to the empty array in Go). -/
theorem convertResponse_ok_iff_choices (parsed : Option OAIChatResponse)
    (requestModel genMsgId : String) (genToolId : Nat → String) :
    exceptOk (convertResponse parsed requestModel genMsgId genToolId) = true ↔
      ∃ resp, parsed = some resp ∧ resp.choices ≠ [] := by
  cases parsed with
  | none => simp [convertResponse, exceptOk]
  | some resp =>
    cases h : resp.choices with
    | nil => simp [convertResponse, exceptOk, h]
    | cons c cs => simp [convertResponse, exceptOk, h]

/-- C10: for a user message containing at least one tool_result block, the
flattened conversion yields a single user message whose content is never
empty, and when the flattened concatenation of text blocks and tool-result
sections trims to the empty string the content is the literal placeholder.
(With a tool_result present the flattened text always contains the literal
"Tool result for", so the placeholder branch cannot fire; the content is
non-empty in either branch.) -/
theorem convertUserToolResults_nonempty (blocks : List ReqBlock)
    (h : ∃ b ∈ blocks, b.type = "tool_result") :
    (convertUserToolResults blocks).length = 1 ∧
    ((convertUserToolResults blocks).headD { role := "", content := "" }).role = "user" ∧
    ((convertUserToolResults blocks).headD { role := "", content := "" }).content ≠ "" ∧
    ((flattenUserToolResults blocks).trim = "" →
      ((convertUserToolResults blocks).headD { role := "", content := "" }).content = "...") := by
  refine ⟨rfl, rfl, ?_, ?_⟩
  · by_cases hc : (flattenUserToolResults blocks).trim = "" <;>
      simp [convertUserToolResults, hc]
  · intro hc
    simp [convertUserToolResults, hc]

/-- C1 counterexample: the claim says an explicit device list overlapping a
current allocation makes Run fail and create no instance; in `overlapState`
device 0 is allocated to a live container, yet Run with the explicit list
"0" succeeds and registers a new instance. -/
theorem schedRun_overlap_counterexample :
    overlapOpts.device = some "0" ∧
    parseDeviceList "0" = .ok [0] ∧
    (allocatedIndices overlapState).contains 0 = true ∧
    exceptOk (schedRun 9 true overlapState overlapOpts).1 = true ∧
    (schedRun 9 true overlapState overlapOpts).2.instances.length =
      overlapState.instances.length + 1 := by
  refine ⟨rfl, ?_, rfl, ?_, ?_⟩ <;> rfl

/-- C1 amended: Run validates an explicit device index list only against
the inventory: when no instance of the requested model is running and the
parsed list names an index at or beyond the inventory size, Run fails and
leaves the state unchanged (no instance, container, device or port
allocation); disjointness from devices of live containers is not checked,
as the counterexample shows. -/
theorem schedRun_rejects_out_of_inventory (now : Nat) (startOK : Bool) (s : SchedState)
    (opts : SchedRunOptions) (dl : String) (idxs : List Nat)
    (hdedup : dedupFind s opts = none)
    (hdl : opts.device = some dl) (hne : dl ≠ "")
    (hparse : parseDeviceList dl = .ok idxs)
    (hoob : idxs.any (fun i => s.inventory.length ≤ i) = true) :
    (schedRun now startOK s opts).2 = s ∧
    exceptOk (schedRun now startOK s opts).1 = false := by
  have hdev : deviceStep s opts = .error "device index out of range" := by
    unfold deviceStep
    simp only [hdl]
    rw [if_pos hne]
    simp only [hparse]
    rw [if_pos hoob]
  unfold schedRun
  rw [hdedup]
  by_cases hrt : s.runtimes.contains (opts.backendType ++ "-" ++ opts.deploymentMode) = true
  · have hmem : opts.backendType ++ "-" ++ opts.deploymentMode ∈ s.runtimes := by
      simpa using hrt
    by_cases hpath : opts.modelPath = ""
    · simp [hmem, hpath, exceptOk]
    · simp [hmem, hpath, hdev, exceptOk]
  · have hmem : opts.backendType ++ "-" ++ opts.deploymentMode ∉ s.runtimes := by
      simpa using hrt
    simp [hmem, exceptOk]

theorem schedRun_rejects_out_of_inventory_witness :
    dedupFind smallState outOfRangeOpts = none ∧
    outOfRangeOpts.device = some "5" ∧
    "5" ≠ "" ∧
    parseDeviceList "5" = .ok [5] ∧
    [5].any (fun i => smallState.inventory.length ≤ i) = true ∧
    ((schedRun 3 true smallState outOfRangeOpts).2 = smallState ∧
      exceptOk (schedRun 3 true smallState outOfRangeOpts).1 = false) :=
  ⟨rfl, rfl, by decide, by rfl, by rfl,
    schedRun_rejects_out_of_inventory 3 true smallState outOfRangeOpts "5" [5]
      rfl rfl (by decide) (by rfl) (by rfl)⟩

/-- C2: when an instance of the requested model is running (and is the only
such instance, per registry invariant 3), a second Run with the same model
id returns an instance carrying the same instance id and leaves the state
unchanged: no container is created and no device or port is allocated by
that call. -/
theorem schedRun_idempotent_per_model (now : Nat) (startOK : Bool) (s : SchedState)
    (opts : SchedRunOptions) (inst : RTInstance)
    (hmem : inst ∈ s.instances) (hm : inst.modelID = opts.modelID)
    (hr : inst.state = "running")
    (huniq : ∀ j ∈ s.instances, j.modelID = opts.modelID → j.state = "running" → j = inst) :
    schedRun now startOK s opts =
      (.ok { id := inst.id, modelID := inst.modelID, state := inst.state,
             port := inst.port }, s) := by
  have hfind : dedupFind s opts = some inst := by
    unfold dedupFind
    cases hf : s.instances.find? (fun i => i.modelID = opts.modelID && i.state = "running") with
    | none =>
      exfalso
      have hnone := List.find?_eq_none.mp hf inst hmem
      simp [hm, hr] at hnone
    | some j =>
      have hpj := List.find?_some hf
      have hjmem := List.mem_of_find?_eq_some hf
      simp only [Bool.and_eq_true, decide_eq_true_eq] at hpj
      rw [huniq j hjmem hpj.1 hpj.2]
  unfold schedRun
  rw [hfind]

theorem schedRun_idempotent_per_model_witness :
    ({ id := "m-1", modelID := "m", state := "running", port := 10881 } : RTInstance)
        ∈ dedupState.instances ∧
    ({ id := "m-1", modelID := "m", state := "running", port := 10881 } : RTInstance).modelID
        = autoOpts.modelID ∧
    ({ id := "m-1", modelID := "m", state := "running", port := 10881 } : RTInstance).state
        = "running" ∧
    (∀ j ∈ dedupState.instances, j.modelID = autoOpts.modelID → j.state = "running" →
      j = { id := "m-1", modelID := "m", state := "running", port := 10881 }) ∧
    schedRun 4 true dedupState autoOpts =
      (.ok { id := "m-1", modelID := "m", state := "running", port := 10881 }, dedupState) :=
  ⟨by decide, rfl, rfl, by decide,
    schedRun_idempotent_per_model 4 true dedupState autoOpts
      { id := "m-1", modelID := "m", state := "running", port := 10881 }
      (by decide) rfl rfl (by decide)⟩

theorem leasePortStep_ok_shape (s : SchedState) (r p : Nat) (s1 : SchedState)
    (h : leasePortStep s r = .ok (p, s1)) :
    s1 = { s with leasedPorts := p :: s.leasedPorts } := by
  unfold leasePortStep at h
  by_cases hr : 0 < r
  · simp only [hr, if_true, Except.ok.injEq, Prod.mk.injEq] at h
    rw [← h.1]
    exact h.2.symm
  · simp only [hr, if_false] at h
    cases hf : (List.range' s.minPort (s.maxPort + 1 - s.minPort)).find?
        (fun p => !s.leasedPorts.contains p) with
    | none => rw [hf] at h; exact absurd h (by simp)
    | some q =>
      rw [hf] at h
      simp only [Except.ok.injEq, Prod.mk.injEq] at h
      rw [← h.1]
      exact h.2.symm

theorem rtCreate_ok_shape (s : SchedState) (iid mid : String) (devs : List SchedDevice)
    (rp p : Nat) (s1 : SchedState)
    (h : rtCreate s iid mid devs rp = .ok (p, s1)) :
    s.instances.any (fun i => i.id = iid) = false ∧
    s1 = { s with
      leasedPorts := p :: s.leasedPorts
      containers :=
        { instanceID := iid, deviceIndices := devs.map (·.index), port := p } :: s.containers
      instances :=
        { id := iid, modelID := mid, state := "created", port := p } :: s.instances } := by
  unfold rtCreate at h
  by_cases hdup : s.instances.any (fun i => i.id = iid) = true
  · simp [hdup] at h
  · refine ⟨by simpa using hdup, ?_⟩
    rw [if_neg hdup] at h
    by_cases hde : devs.isEmpty = true
    · simp [hde] at h
    · rw [if_neg hde] at h
      cases hl : leasePortStep s rp with
      | error e => rw [hl] at h; exact absurd h (by simp)
      | ok pr =>
        obtain ⟨q, sL⟩ := pr
        have hsL := leasePortStep_ok_shape s rp q sL hl
        rw [hl] at h
        simp only [Except.ok.injEq, Prod.mk.injEq] at h
        rw [← h.1, ← h.2, hsL]

/-- C3: when the container is created but the start fails, Run rolls back —
the created container is removed, the leased port and the allocated devices
are released (the registry entry is deleted) — and returns an error, the
final state being exactly the state before the call: no devices, ports or
containers remain allocated to the failed instance. -/
theorem schedRun_rollback_on_start_failure (now : Nat) (s : SchedState)
    (opts : SchedRunOptions) (devs : List SchedDevice) (p : Nat) (s1 : SchedState)
    (hdedup : dedupFind s opts = none)
    (hrt : s.runtimes.contains (opts.backendType ++ "-" ++ opts.deploymentMode) = true)
    (hpath : ¬ opts.modelPath = "")
    (hdev : deviceStep s opts = .ok devs)
    (hcreate : rtCreate s (runInstanceID now opts) opts.modelID devs opts.port = .ok (p, s1))
    (hfresh : ∀ c ∈ s.containers, c.instanceID ≠ runInstanceID now opts) :
    schedRun now false s opts = (.error "failed to start instance: start failed", s) := by
  obtain ⟨hdup, hs1⟩ := rtCreate_ok_shape s _ opts.modelID devs opts.port p s1 hcreate
  have hrb : allocatorRelease (rtRemove s1 (runInstanceID now opts)) (runInstanceID now opts)
      = s := by
    subst hs1
    have hfilterC :
        s.containers.filter (fun c => c.instanceID ≠ runInstanceID now opts) = s.containers :=
      List.filter_eq_self.mpr (fun c hc => by simpa using hfresh c hc)
    have hfilterI :
        s.instances.filter (fun i => i.id ≠ runInstanceID now opts) = s.instances := by
      refine List.filter_eq_self.mpr (fun i hi => ?_)
      have hne : ¬ (i.id = runInstanceID now opts) := by
        intro hcontra
        have hall : s.instances.any (fun i => i.id = runInstanceID now opts) = true :=
          List.any_eq_true.mpr ⟨i, hi, by simpa using hcontra⟩
        rw [hdup] at hall
        exact Bool.false_ne_true hall
      simpa using hne
    have hfind :
        (({ instanceID := runInstanceID now opts, deviceIndices := devs.map (·.index),
            port := p } :: s.containers).find?
          (fun c => c.instanceID = runInstanceID now opts)) =
          some { instanceID := runInstanceID now opts,
                 deviceIndices := devs.map (·.index), port := p } :=
      List.find?_cons_of_pos _ (by simp)
    unfold rtRemove allocatorRelease
    rw [hfind]
    simp only [ne_eq, decide_not] at hfilterC hfilterI
    simp [List.filter_cons, hfilterC, hfilterI, List.erase_cons_head]
  unfold schedRun
  rw [hdedup]
  have hmem : opts.backendType ++ "-" ++ opts.deploymentMode ∈ s.runtimes := by
    simpa using hrt
  simp only [hmem, hpath, hdev, hcreate, rtStart, hrb]
  simp [hrt]
  exact hmem

theorem schedRun_rollback_on_start_failure_witness :
    dedupFind smallState autoOpts = none ∧
    smallState.runtimes.contains (autoOpts.backendType ++ "-" ++ autoOpts.deploymentMode)
      = true ∧
    ¬ autoOpts.modelPath = "" ∧
    deviceStep smallState autoOpts = .ok [{ index := 0, busAddress := "p0" }] ∧
    rtCreate smallState (runInstanceID 7 autoOpts) autoOpts.modelID
        [{ index := 0, busAddress := "p0" }] autoOpts.port =
      .ok (10900,
        { instances := [{ id := "m-7", modelID := "m", state := "created", port := 10900 }]
          containers := [{ instanceID := "m-7", deviceIndices := [0], port := 10900 }]
          leasedPorts := [10900]
          inventory := [{ index := 0, busAddress := "p0" }]
          runtimes := ["vllm-docker"], minPort := 10881, maxPort := 11881 }) ∧
    (∀ c ∈ smallState.containers, c.instanceID ≠ runInstanceID 7 autoOpts) ∧
    schedRun 7 false smallState autoOpts =
      (.error "failed to start instance: start failed", smallState) :=
  ⟨rfl, rfl, by decide, rfl, rfl, by simp [smallState],
    schedRun_rollback_on_start_failure 7 smallState autoOpts
      [{ index := 0, busAddress := "p0" }] 10900 _ rfl rfl (by decide) rfl rfl
      (by simp [smallState])⟩

theorem foldl_envInsert_apply (l : List (String × String)) (m : EnvMap) (k : String) :
    (l.foldl (fun m kv => envInsert m kv.1 kv.2) m) k =
      match envOfList l k with
      | some v => some v
      | none => m k := by
  induction l generalizing m with
  | nil => simp [envOfList, envEmpty]
  | cons kv t ih =>
    show (t.foldl (fun m kv => envInsert m kv.1 kv.2) (envInsert m kv.1 kv.2)) k = _
    rw [ih]
    have h2 : envOfList (kv :: t) k =
        match envOfList t k with
        | some v => some v
        | none => envInsert envEmpty kv.1 kv.2 k := by
      show (t.foldl (fun m kv => envInsert m kv.1 kv.2) (envInsert envEmpty kv.1 kv.2)) k = _
      rw [ih]
    rw [h2]
    cases envOfList t k with
    | some v => rfl
    | none =>
      simp only [envInsert, envEmpty]
      by_cases hk : k = kv.1 <;> simp [hk]

/-- C8 counterexample: the claim says that on a key collision between the
user environment and the sandbox environment the sandbox value wins only
for device keys and the user value wins for every other key; for the
non-device key "FOO" present in both, the merge of Runtime.Create keeps the
sandbox value, not the user value. -/
theorem mergeEnv_sandbox_wins_counterexample :
    mergeEnv [("FOO", "user")] [("FOO", "sbx")] "FOO" = some "sbx" ∧
    isDeviceKey "FOO" = false ∧
    (some "sbx" : Option String) ≠ some "user" := by
  refine ⟨rfl, rfl, ?_⟩
  decide

/-- C8 amended: the merge of Runtime.Create copies the user environment
first and the sandbox environment second, so on every key collision the
sandbox value wins (device key or not); the canonical keys MODEL_PATH,
MODEL_NAME and SERVER_PORT are then written on top of the merge, and every
non-canonical key defined by the sandbox environment keeps its sandbox
value in the final create-spec environment. -/
theorem buildCreateEnv_sandbox_wins (p : CreateEnvParams)
    (sandboxEnv : List (String × String)) (k v : String)
    (hsbx : envOfList sandboxEnv k = some v)
    (hcanon : isCanonicalEnvKey k = false) :
    mergeEnv p.environment sandboxEnv k = some v ∧
    buildCreateEnv p sandboxEnv k = some v ∧
    buildCreateEnv p sandboxEnv "MODEL_PATH" = some "/mnt/model" ∧
    buildCreateEnv p sandboxEnv "MODEL_NAME" =
      some (if p.aliasName = "" then p.modelID else p.aliasName) ∧
    buildCreateEnv p sandboxEnv "SERVER_PORT" =
      some (if 0 < p.port then toString p.port else "8000") := by
  have hmerge : mergeEnv p.environment sandboxEnv k = some v := by
    unfold mergeEnv
    rw [foldl_envInsert_apply, hsbx]
  have hk : k ≠ "MODEL_PATH" ∧ k ≠ "MODEL_NAME" ∧ k ≠ "TENSOR_PARALLEL_SIZE"
      ∧ k ≠ "MAX_MODEL_LEN" ∧ k ≠ "SERVER_PORT" := by
    unfold isCanonicalEnvKey at hcanon
    simp only [Bool.or_eq_false_iff, decide_eq_false_iff_not] at hcanon
    exact ⟨hcanon.1.1.1.1, hcanon.1.1.1.2, hcanon.1.1.2, hcanon.1.2, hcanon.2⟩
  refine ⟨hmerge, ?_, ?_, ?_, ?_⟩
  · unfold buildCreateEnv
    cases p.maxModelLen <;>
      simp [envInsert, hk.1, hk.2.1, hk.2.2.1, hk.2.2.2.1, hk.2.2.2.2, hmerge] <;>
      split <;>
      simp [envInsert, hk.1, hk.2.1, hk.2.2.1, hk.2.2.2.1, hk.2.2.2.2, hmerge]
  · unfold buildCreateEnv
    cases p.maxModelLen <;> simp [envInsert] <;> split <;> simp [envInsert]
  · unfold buildCreateEnv
    cases p.maxModelLen <;> simp [envInsert] <;> split <;> simp [envInsert]
  · unfold buildCreateEnv
    cases p.maxModelLen <;> simp [envInsert] <;> split <;> simp [envInsert]

theorem buildCreateEnv_sandbox_wins_witness :
    envOfList [("FOO", "sbx")] "FOO" = some "sbx" ∧
    isCanonicalEnvKey "FOO" = false ∧
    (mergeEnv [("FOO", "user")] [("FOO", "sbx")] "FOO" = some "sbx" ∧
      buildCreateEnv
        { aliasName := "a", modelID := "m", tensorParallel := 0, deviceCount := 2,
          maxModelLen := none, port := 10900, environment := [("FOO", "user")] }
        [("FOO", "sbx")] "FOO" = some "sbx" ∧
      buildCreateEnv
        { aliasName := "a", modelID := "m", tensorParallel := 0, deviceCount := 2,
          maxModelLen := none, port := 10900, environment := [("FOO", "user")] }
        [("FOO", "sbx")] "MODEL_PATH" = some "/mnt/model" ∧
      buildCreateEnv
        { aliasName := "a", modelID := "m", tensorParallel := 0, deviceCount := 2,
          maxModelLen := none, port := 10900, environment := [("FOO", "user")] }
        [("FOO", "sbx")] "MODEL_NAME" =
        some (if ("a" : String) = "" then "m" else "a") ∧
      buildCreateEnv
        { aliasName := "a", modelID := "m", tensorParallel := 0, deviceCount := 2,
          maxModelLen := none, port := 10900, environment := [("FOO", "user")] }
        [("FOO", "sbx")] "SERVER_PORT" =
        some (if 0 < (10900 : Nat) then toString (10900 : Nat) else "8000")) :=
  ⟨rfl, rfl,
    buildCreateEnv_sandbox_wins
      { aliasName := "a", modelID := "m", tensorParallel := 0, deviceCount := 2,
        maxModelLen := none, port := 10900, environment := [("FOO", "user")] }
      [("FOO", "sbx")] "FOO" "sbx" (by rfl) (by rfl)⟩

theorem convertUserToolResults_nonempty_witness :
    (∃ b ∈ [({ type := "tool_result", text := "", toolUseID := "t1",
               content := ToolResultContent.str "out" } : ReqBlock)],
        b.type = "tool_result") ∧
    ((convertUserToolResults
        [{ type := "tool_result", text := "", toolUseID := "t1",
           content := ToolResultContent.str "out" }]).length = 1 ∧
      ((convertUserToolResults
          [{ type := "tool_result", text := "", toolUseID := "t1",
             content := ToolResultContent.str "out" }]).headD
          { role := "", content := "" }).role = "user" ∧
      ((convertUserToolResults
          [{ type := "tool_result", text := "", toolUseID := "t1",
             content := ToolResultContent.str "out" }]).headD
          { role := "", content := "" }).content ≠ "" ∧
      ((flattenUserToolResults
          [{ type := "tool_result", text := "", toolUseID := "t1",
             content := ToolResultContent.str "out" }]).trim = "" →
        ((convertUserToolResults
            [{ type := "tool_result", text := "", toolUseID := "t1",
               content := ToolResultContent.str "out" }]).headD
            { role := "", content := "" }).content = "...")) :=
  ⟨by simp, convertUserToolResults_nonempty _ (by simp)⟩

theorem delta_split {es new u v : List AEvent} {i : Nat} {d : ADelta}
    (h : es ++ new = u ++ AEvent.contentBlockDelta i d :: v) :
    (∃ w, es = u ++ AEvent.contentBlockDelta i d :: w ∧ v = w ++ new) ∨
      (∃ a, u = es ++ a ∧ new = a ++ AEvent.contentBlockDelta i d :: v) := by
  rcases List.append_eq_append_iff.mp h with ⟨a, ha1, ha2⟩ | ⟨c, hc1, hc2⟩
  · right
    exact ⟨a, ha1, ha2⟩
  · cases c with
    | nil =>
      right
      refine ⟨[], ?_, ?_⟩
      · simp only [List.append_nil] at hc1 ⊢
        exact hc1.symm
      · simpa using hc2.symm
    | cons x c =>
      left
      injection hc2 with hx hv
      exact ⟨c, by rw [hc1, ← hx], hv⟩

theorem deltasOk_append_no_delta {st st' : SAState} {es new : List AEvent}
    (hmono : ∀ i, Pending st i → AEvent.contentBlockStop i ∈ new ∨ Pending st' i)
    (hnod : ∀ i d, AEvent.contentBlockDelta i d ∉ new)
    (h : DeltasOk st es) : DeltasOk st' (es ++ new) := by
  intro u i d v hdec
  rcases delta_split hdec with ⟨w, hes, hv⟩ | ⟨a, _, hnew⟩
  · obtain ⟨hstart, hstop⟩ := h u i d w hes
    refine ⟨hstart, ?_⟩
    rcases hstop with hstop | hpend
    · left
      rw [hv]
      exact List.mem_append_left _ hstop
    · rcases hmono i hpend with hstop | hpend'
      · left
        rw [hv]
        exact List.mem_append_right _ hstop
      · right
        exact hpend'
  · exfalso
    refine hnod i d ?_
    rw [hnew]
    exact List.mem_append_right _ (List.mem_cons_self _ _)

theorem deltasOk_append_delta {st st' : SAState} {es : List AEvent} {i : Nat} {d : ADelta}
    (hstart : ∃ b, AEvent.contentBlockStart i b ∈ es)
    (hpend : Pending st' i)
    (hmono : ∀ j, Pending st j → Pending st' j)
    (h : DeltasOk st es) : DeltasOk st' (es ++ [AEvent.contentBlockDelta i d]) := by
  intro u j e v hdec
  rcases delta_split hdec with ⟨w, hes, hv⟩ | ⟨a, hu, hnew⟩
  · obtain ⟨hstart2, hstop⟩ := h u j e w hes
    refine ⟨hstart2, ?_⟩
    rcases hstop with hstop | hpend2
    · left
      rw [hv]
      exact List.mem_append_left _ hstop
    · right
      exact hmono j hpend2
  · cases a with
    | nil =>
      injection (by simpa using hnew : AEvent.contentBlockDelta i d :: ([] : List AEvent)
          = AEvent.contentBlockDelta j e :: v) with hx hv
      obtain ⟨hji, hed⟩ := AEvent.contentBlockDelta.inj hx
      refine ⟨?_, ?_⟩
      · rw [hu, List.append_nil, ← hji]
        exact hstart
      · right
        rw [← hji]
        exact hpend
    | cons x a =>
      exfalso
      injection hnew with hx htail
      obtain ⟨-, h2⟩ := List.append_eq_nil.mp htail.symm
      exact List.cons_ne_nil _ _ h2

theorem saInv_stop0 {st : SAState} {es : List AEvent} (h : SAInv st es) :
    SAInv { st with textBlockDone := true } (es ++ [AEvent.contentBlockStop 0]) := by
  obtain ⟨hfin, hopen, htool, hstarts, hdeltas⟩ := h
  refine ⟨hfin, hopen, htool, ?_, ?_⟩
  · intro k hk
    obtain ⟨b, hb⟩ := hstarts k hk
    exact ⟨b, List.mem_append_left _ hb⟩
  · refine deltasOk_append_no_delta ?_ (by simp) hdeltas
    intro i hpend
    rcases hpend with ⟨hi0, _⟩ | ⟨h1, h2⟩
    · left
      rw [hi0]
      exact List.mem_singleton_self _
    · right
      right
      exact ⟨h1, h2⟩

theorem saInv_delta0 {st : SAState} {es : List AEvent} (s : String)
    (h : SAInv st es) (hdone : st.textBlockDone = false) :
    SAInv st (es ++ [AEvent.contentBlockDelta 0 (ADelta.textDelta s)]) := by
  obtain ⟨hfin, hopen, htool, hstarts, hdeltas⟩ := h
  refine ⟨hfin, hopen, htool, ?_, ?_⟩
  · intro k hk
    obtain ⟨b, hb⟩ := hstarts k hk
    exact ⟨b, List.mem_append_left _ hb⟩
  · exact deltasOk_append_delta (hstarts 0 (Nat.zero_le _)) (Or.inl ⟨rfl, hdone⟩)
      (fun _ hp => hp) hdeltas

theorem saInv_newBlock {st : SAState} {es : List AEvent} (idx : Nat) (b : ABlock)
    (h : SAInv st es) :
    SAInv { st with toolIndex := some idx, lastBlockIndex := st.lastBlockIndex + 1 }
      (es ++ [AEvent.contentBlockStart (st.lastBlockIndex + 1) b]) := by
  obtain ⟨hfin, hopen, htool, hstarts, hdeltas⟩ := h
  refine ⟨hfin, hopen, fun _ => by simp, ?_, ?_⟩
  · intro k hk
    rcases Nat.le_succ_iff.mp hk with hk' | hk'
    · obtain ⟨bb, hb⟩ := hstarts k hk'
      exact ⟨bb, List.mem_append_left _ hb⟩
    · refine ⟨b, ?_⟩
      rw [hk']
      exact List.mem_append_right _ (List.mem_singleton_self _)
  · refine deltasOk_append_no_delta ?_ (by simp) hdeltas
    intro i hpend
    right
    rcases hpend with ⟨hi0, hd⟩ | ⟨h1, h2⟩
    · exact Or.inl ⟨hi0, hd⟩
    · exact Or.inr ⟨h1, Nat.le_succ_of_le h2⟩

theorem saInv_jsonDelta {st : SAState} {es : List AEvent} (d : ADelta)
    (h : SAInv st es) (hge : 1 ≤ st.lastBlockIndex) :
    SAInv st (es ++ [AEvent.contentBlockDelta st.lastBlockIndex d]) := by
  obtain ⟨hfin, hopen, htool, hstarts, hdeltas⟩ := h
  refine ⟨hfin, hopen, htool, ?_, ?_⟩
  · intro k hk
    obtain ⟨b, hb⟩ := hstarts k hk
    exact ⟨b, List.mem_append_left _ hb⟩
  · exact deltasOk_append_delta (hstarts _ (Nat.le_refl _))
      (Or.inr ⟨hge, Nat.le_refl _⟩) (fun _ hp => hp) hdeltas

theorem fragment_inv {st : SAState} {es : List AEvent} (tc : ToolCallFragment)
    (h : SAInv st es) :
    SAInv (processToolCallFragment st tc).1 (es ++ (processToolCallFragment st tc).2) := by
  simp only [processToolCallFragment]
  by_cases hti : st.toolIndex = some (tc.index.getD 0)
  · rw [if_pos hti]
    by_cases harg : tc.arguments ≠ ""
    · rw [if_pos harg]
      have hge : 1 ≤ st.lastBlockIndex := h.2.2.1 (by simp [hti])
      simpa using saInv_jsonDelta _ h hge
    · rw [if_neg harg]
      simpa using h
  · rw [if_neg hti]
    have hnb := saInv_newBlock (tc.index.getD 0)
      (ABlock.toolUse (if tc.id = "" then freshToolId else tc.id) tc.name) h
    by_cases harg : tc.arguments ≠ ""
    · rw [if_pos harg]
      have hd := saInv_jsonDelta (ADelta.inputJsonDelta tc.arguments) hnb (by simp)
      simpa [List.append_assoc] using hd
    · rw [if_neg harg]
      simpa using hnb

theorem fragments_inv (tcs : List ToolCallFragment) :
    ∀ {st : SAState} {es : List AEvent}, SAInv st es →
      SAInv (processFragments st tcs).1 (es ++ (processFragments st tcs).2) := by
  induction tcs with
  | nil =>
    intro st es h
    simpa [processFragments] using h
  | cons tc rest ih =>
    intro st es h
    have h1 := fragment_inv tc h
    have h2 := ih h1
    simpa [processFragments, List.append_assoc] using h2

theorem toolCalls_inv {st : SAState} {es : List AEvent} (tcs : List ToolCallFragment)
    (h : SAInv st es) :
    SAInv (processToolCalls st tcs).1 (es ++ (processToolCalls st tcs).2) := by
  simp only [processToolCalls]
  by_cases hc : (st.toolIndex = none && !st.textBlockDone) = true
  · rw [if_pos hc]
    have h0 := saInv_stop0 h
    have h1 := fragments_inv tcs h0
    simpa [List.append_assoc] using h1
  · rw [if_neg hc]
    simpa using fragments_inv tcs h

theorem sseOrdered_of_inv {st : SAState} {es closing : List AEvent}
    (hdeltas : DeltasOk st es)
    (hnod : ∀ i d, AEvent.contentBlockDelta i d ∉ closing)
    (hpend : ∀ i, Pending st i → AEvent.contentBlockStop i ∈ closing)
    (hend : ∃ u, es ++ closing = u ++ [AEvent.messageStop, AEvent.done]) :
    SSEOrdered (es ++ closing) := by
  refine ⟨?_, hend⟩
  intro u i d v hdec
  rcases delta_split hdec with ⟨w, hes, hv⟩ | ⟨a, hu, hnew⟩
  · obtain ⟨hstart, hstop⟩ := hdeltas u i d w hes
    refine ⟨hstart, ?_⟩
    rw [hv]
    rcases hstop with hstop | hp
    · exact List.mem_append_left _ hstop
    · exact List.mem_append_right _ (hpend i hp)
  · exfalso
    refine hnod i d ?_
    rw [hnew]
    exact List.mem_append_right _ (List.mem_cons_self _ _)

theorem mem_toolStops {st : SAState} {i : Nat} (h1 : 1 ≤ i) (h2 : i ≤ st.lastBlockIndex) :
    AEvent.contentBlockStop i ∈ (List.range' 1 st.lastBlockIndex).map AEvent.contentBlockStop :=
  List.mem_map.mpr ⟨i, List.mem_range'.mpr ⟨i - 1, by omega, by omega⟩, rfl⟩

theorem handleFinish_closes {st : SAState} {es : List AEvent} (r : String)
    (h : SAInv st es) :
    SSEOrdered (es ++ (handleFinish st r).2) ∧
    (handleFinish st r).1.finished = true ∧
    (handleFinish st r).1.textBlockDone = true := by
  obtain ⟨hfin, hopen, htool, hstarts, hdeltas⟩ := h
  simp only [handleFinish]
  rw [if_neg (by simp [hfin])]
  by_cases hdone : st.textBlockDone = true
  · rw [if_neg (by simp [hdone])]
    refine ⟨?_, rfl, hdone⟩
    refine sseOrdered_of_inv hdeltas ?_ ?_ ?_
    · intro i d hmem
      simp [List.mem_append, List.mem_map] at hmem
    · intro i hp
      rcases hp with ⟨_, hd⟩ | ⟨h1, h2⟩
      · rw [hdone] at hd
        exact absurd hd (by simp)
      · exact List.mem_append_left _ (List.mem_append_left _ (mem_toolStops h1 h2))
    · exact ⟨es ++ (((List.range' 1 st.lastBlockIndex).map AEvent.contentBlockStop
        ++ (st, ([] : List AEvent)).2)
        ++ [AEvent.messageDelta (mapFinishReason r) st.outputTokens]), by simp⟩
  · have hdf : st.textBlockDone = false := by
      revert hdone
      cases st.textBlockDone <;> simp
    rw [if_pos (by simp [hdf])]
    refine ⟨?_, rfl, rfl⟩
    refine sseOrdered_of_inv hdeltas ?_ ?_ ?_
    · intro i d hmem
      simp [List.mem_append, List.mem_map] at hmem
    · intro i hp
      rcases hp with ⟨h0, _⟩ | ⟨h1, h2⟩
      · rw [h0]
        exact List.mem_append_left _
          (List.mem_append_right _ (List.mem_singleton_self _))
      · exact List.mem_append_left _ (List.mem_append_left _ (mem_toolStops h1 h2))
    · exact ⟨es ++ (((List.range' 1 st.lastBlockIndex).map AEvent.contentBlockStop
        ++ [AEvent.contentBlockStop 0])
        ++ [AEvent.messageDelta (mapFinishReason r) st.outputTokens]), by simp⟩

theorem saInv_usage {st : SAState} {es : List AEvent} (c : Chunk)
    (h : SAInv st es) : SAInv (usageStep st c) es := by
  unfold usageStep
  cases c.usage <;> exact h

theorem usageStep_textBlockDone (st : SAState) (c : Chunk) :
    (usageStep st c).textBlockDone = st.textBlockDone := by
  unfold usageStep
  cases c.usage <;> rfl

theorem usageStep_finished (st : SAState) (c : Chunk) :
    (usageStep st c).finished = st.finished := by
  unfold usageStep
  cases c.usage <;> rfl

theorem textStep_inv {st : SAState} {es : List AEvent} (con : Option String)
    (h : SAInv st es) : SAInv st (es ++ textStep st con) := by
  cases con with
  | none => simpa [textStep] using h
  | some s =>
    simp only [textStep]
    by_cases hcond : (s ≠ "" && st.textBlockOpen && !st.textBlockDone) = true
    · rw [if_pos hcond]
      have hdone : st.textBlockDone = false := by
        simp only [Bool.and_eq_true] at hcond
        have hd := hcond.2
        revert hd
        cases st.textBlockDone <;> simp
      exact saInv_delta0 s h hdone
    · rw [if_neg hcond]
      simpa using h

theorem toolStep_inv {st : SAState} {es : List AEvent} (tcs : List ToolCallFragment)
    (h : SAInv st es) :
    SAInv (toolStep st tcs).1 (es ++ (toolStep st tcs).2) := by
  unfold toolStep
  by_cases hemp : tcs.isEmpty = true
  · rw [if_pos hemp]
    simpa using h
  · rw [if_neg hemp]
    exact toolCalls_inv tcs h

theorem processChunk_unfinished {st : SAState} {es : List AEvent} (c : Chunk)
    (h : SAInv st es) (hnf : finishBearing c = false) :
    SAInv (processChunk st c).1 (es ++ (processChunk st c).2) := by
  have h0 := saInv_usage c h
  cases hch : c.choices with
  | nil =>
    simp only [processChunk, hch]
    simpa using h0
  | cons choice rest =>
    have hfr : choice.finishReason = none := by
      unfold finishBearing at hnf
      rw [hch] at hnf
      simpa using hnf
    have h1 := textStep_inv choice.delta.content h0
    have h2 := toolStep_inv choice.delta.toolCalls h1
    simp only [processChunk, hch, hfr, finishStep]
    simpa [List.append_assoc] using h2

theorem processChunk_finish {st : SAState} {es : List AEvent} (c : Chunk)
    (h : SAInv st es) (hf : finishBearing c = true) :
    SSEOrdered (es ++ (processChunk st c).2) ∧
    (processChunk st c).1.finished = true ∧
    (processChunk st c).1.textBlockDone = true := by
  have h0 := saInv_usage c h
  cases hch : c.choices with
  | nil =>
    exfalso
    unfold finishBearing at hf
    rw [hch] at hf
    exact Bool.false_ne_true hf.symm.symm
  | cons choice rest =>
    obtain ⟨r, hr⟩ : ∃ r, choice.finishReason = some r := by
      unfold finishBearing at hf
      rw [hch] at hf
      exact Option.isSome_iff_exists.mp (by simpa using hf)
    have h1 := textStep_inv choice.delta.content h0
    have h2 := toolStep_inv choice.delta.toolCalls h1
    obtain ⟨hS, hfin, hdone⟩ := handleFinish_closes r h2
    simp only [processChunk, hch, hr, finishStep]
    refine ⟨?_, hfin, hdone⟩
    have heq :
        ((es ++ textStep (usageStep st c) choice.delta.content)
            ++ (toolStep (usageStep st c) choice.delta.toolCalls).2)
          ++ (handleFinish (toolStep (usageStep st c) choice.delta.toolCalls).1 r).2 =
        es ++ (textStep (usageStep st c) choice.delta.content
            ++ (toolStep (usageStep st c) choice.delta.toolCalls).2
            ++ (handleFinish (toolStep (usageStep st c) choice.delta.toolCalls).1 r).2) := by
      simp [List.append_assoc]
    rw [heq] at hS
    exact hS

theorem processChunk_after_finish {st : SAState} (c : Chunk)
    (hfin : st.finished = true) (hdone : st.textBlockDone = true)
    (hnc : hasToolCalls c = false) :
    (processChunk st c).2 = [] ∧
    (processChunk st c).1.finished = true ∧
    (processChunk st c).1.textBlockDone = true := by
  have hfinU : (usageStep st c).finished = true := by rw [usageStep_finished]; exact hfin
  have hdoneU : (usageStep st c).textBlockDone = true := by
    rw [usageStep_textBlockDone]; exact hdone
  cases hch : c.choices with
  | nil =>
    simp only [processChunk, hch]
    exact ⟨trivial, hfinU, hdoneU⟩
  | cons choice rest =>
    have htext : textStep (usageStep st c) choice.delta.content = [] := by
      cases choice.delta.content with
      | none => rfl
      | some s =>
        simp only [textStep]
        rw [if_neg (by simp [hdoneU])]
    have htc : choice.delta.toolCalls.isEmpty = true := by
      unfold hasToolCalls at hnc
      rw [hch] at hnc
      simpa using hnc
    have htool : toolStep (usageStep st c) choice.delta.toolCalls = (usageStep st c, []) := by
      unfold toolStep
      rw [if_pos htc]
    cases hfr : choice.finishReason with
    | none =>
      simp only [processChunk, hch, hfr, finishStep, htext, htool]
      exact ⟨rfl, hfinU, hdoneU⟩
    | some r =>
      have hhf : handleFinish (usageStep st c) r = (usageStep st c, []) := by
        unfold handleFinish
        rw [if_pos hfinU]
      simp only [processChunk, hch, hfr, finishStep, htext, htool, hhf]
      exact ⟨rfl, hfinU, hdoneU⟩

theorem processChunks_clean (cs : List Chunk) :
    ∀ {st : SAState}, st.finished = true → st.textBlockDone = true →
      cs.all (fun cc => !hasToolCalls cc) = true →
      (processChunks st cs).2 = [] ∧ (processChunks st cs).1.finished = true := by
  induction cs with
  | nil =>
    intro st hf _ _
    exact ⟨rfl, hf⟩
  | cons c rest ih =>
    intro st hf hd hall
    have hparts : (!hasToolCalls c) = true ∧ rest.all (fun cc => !hasToolCalls cc) = true := by
      simpa using hall
    have hnc : hasToolCalls c = false := by
      have := hparts.1
      revert this
      cases hasToolCalls c <;> simp
    obtain ⟨he1, hf1, hd1⟩ := processChunk_after_finish c hf hd hnc
    obtain ⟨he2, hf2⟩ := ih hf1 hd1 hparts.2
    refine ⟨?_, ?_⟩
    · simp only [processChunks]
      rw [he1, he2]
      rfl
    · simp only [processChunks]
      exact hf2

theorem processChunks_main (cs : List Chunk) :
    ∀ {st : SAState} {es : List AEvent}, SAInv st es → cleanAfterFinish cs = true →
      SAInv (processChunks st cs).1 (es ++ (processChunks st cs).2)
      ∨ (SSEOrdered (es ++ (processChunks st cs).2) ∧
         (processChunks st cs).1.finished = true) := by
  induction cs with
  | nil =>
    intro st es h _
    left
    simpa [processChunks] using h
  | cons c rest ih =>
    intro st es h hclean
    cases hf : finishBearing c with
    | false =>
      have h1 := processChunk_unfinished c h hf
      have hclean' : cleanAfterFinish rest = true := by
        unfold cleanAfterFinish at hclean
        rw [if_neg (by simp [hf])] at hclean
        exact hclean
      rcases ih h1 hclean' with hL | ⟨hS, hfin⟩
      · left
        simp only [processChunks]
        simpa [List.append_assoc] using hL
      · right
        simp only [processChunks]
        exact ⟨by simpa [List.append_assoc] using hS, hfin⟩
    | true =>
      obtain ⟨hS, hfin, hdone⟩ := processChunk_finish c h hf
      have hall : rest.all (fun cc => !hasToolCalls cc) = true := by
        unfold cleanAfterFinish at hclean
        rw [if_pos hf] at hclean
        exact hclean
      obtain ⟨he2, hf2⟩ := processChunks_clean rest hfin hdone hall
      right
      simp only [processChunks]
      rw [he2]
      exact ⟨by simpa using hS, hf2⟩

theorem saInv_opening :
    SAInv saInit [AEvent.messageStart, AEvent.contentBlockStart 0 ABlock.text, AEvent.ping] := by
  refine ⟨rfl, rfl, by simp [saInit], ?_, ?_⟩
  · intro k hk
    have hk0 : k = 0 := Nat.le_zero.mp hk
    exact ⟨ABlock.text, by simp [hk0]⟩
  · intro u i d v hdec
    exfalso
    have hmem : AEvent.contentBlockDelta i d
        ∈ [AEvent.messageStart, AEvent.contentBlockStart 0 ABlock.text, AEvent.ping] := by
      rw [hdec]
      exact List.mem_append_right _ (List.mem_cons_self _ _)
    simp at hmem

/-- C6 counterexample: the claim quantifies over all input chunk sequences,
including chunks arriving after a finish_reason chunk; for the sequence
[finish chunk, tool-call chunk] the adapter emits content_block_start and
content_block_delta events after message_stop and the terminal marker, so
message_stop is not the last event. -/
theorem transform_ordering_counterexample :
    cleanAfterFinish [finishChunk, lateToolChunk] = false ∧
    ¬ SSEOrdered (transform [finishChunk, lateToolChunk]) := by
  refine ⟨rfl, ?_⟩
  intro hord
  obtain ⟨-, u, hu⟩ := hord
  have h1 : (u ++ [AEvent.messageStop, AEvent.done]).getLast? = some AEvent.done := by
    rw [show u ++ [AEvent.messageStop, AEvent.done]
        = (u ++ [AEvent.messageStop]) ++ [AEvent.done] by simp]
    exact List.getLast?_concat _
  rw [← hu] at h1
  have h2 : (transform [finishChunk, lateToolChunk]).getLast?
      = some (AEvent.contentBlockDelta 1 (ADelta.inputJsonDelta "x")) := rfl
  rw [h2] at h1
  exact absurd h1 (by decide)

/-- C6 amended: for every input chunk sequence in which no chunk after the
first finish_reason-carrying chunk contains tool-call fragments, the
emitted Anthropic event sequence satisfies the ordering property: every
content_block_delta at index i occurs after the content_block_start for
block i and before the content_block_stop for block i, and message_stop is
the last event, immediately before the terminal marker.  (The
counterexample shows the property fails when tool-call fragments arrive
after a finish_reason chunk.) -/
theorem transform_sse_ordered (chunks : List Chunk)
    (hclean : cleanAfterFinish chunks = true) :
    SSEOrdered (transform chunks) := by
  have hinv := saInv_opening
  have htr : transform chunks =
      [AEvent.messageStart, AEvent.contentBlockStart 0 ABlock.text, AEvent.ping]
        ++ (processChunks saInit chunks).2
        ++ (if (!(processChunks saInit chunks).1.finished) = true
            then (handleFinish (processChunks saInit chunks).1 "stop").2 else []) := rfl
  rw [htr]
  rcases processChunks_main chunks hinv hclean with hL | ⟨hS, hfin⟩
  · have hfin0 : (processChunks saInit chunks).1.finished = false := hL.1
    rw [if_pos (by simp [hfin0])]
    obtain ⟨hcl, -, -⟩ := handleFinish_closes "stop" hL
    exact hcl
  · rw [if_neg (by simp [hfin])]
    simpa using hS

theorem transform_sse_ordered_witness :
    cleanAfterFinish [textChunk, finishChunk] = true ∧
    SSEOrdered (transform [textChunk, finishChunk]) :=
  ⟨rfl, transform_sse_ordered [textChunk, finishChunk] rfl⟩

end XW
